import Mathlib

/-!
Verification of the gitboard export pipeline: the tag-normalising mapper,
the `Exporter.Run` orchestration loop, the Pinboard client's rate-limit wait,
and the CLI progress bar. Go code is shallowly embedded: strings are Lean
strings, Go slices are lists, Go maps used as sets are membership functions,
the collaborator clients are oracles supplying the values their calls return,
and the observable calls the loop makes (progress callbacks and bookmark
writes) are recorded in an effect trace.
-/

namespace Gitboard

/-- Collaborator errors are opaque values to the exporter; the code passes
them through unchanged, so they are modelled as plain strings compared by
equality. -/
abbrev Err := String

/-! ## Character-level groundwork for the tag normaliser -/

/-- Evaluation rule for `Char.ofNat` on a valid codepoint. -/
theorem char_toNat_ofNat (n : Nat) (h : n.isValidChar) : (Char.ofNat n).toNat = n := by
  rw [Char.ofNat, dif_pos h]
  rfl

/-- Lowering a character never produces a space. -/
theorem toLower_ne_space (c : Char) (h : c ≠ ' ') : Char.toLower c ≠ ' ' := by
  rw [Char.toLower]
  by_cases hr : c.toNat ≥ 65 ∧ c.toNat ≤ 90
  · simp only [hr, if_true, and_self]
    intro hEq
    have hv : (c.toNat + 32).isValidChar := Or.inl (by omega)
    have h1 : (Char.ofNat (c.toNat + 32)).toNat = c.toNat + 32 := char_toNat_ofNat _ hv
    have h2 : (' ' : Char).toNat = 32 := by decide
    rw [hEq] at h1
    omega
  · simp only [hr, if_false]
    exact h

/-- Numeric characterisation of `Char.isUpper`. -/
theorem isUpper_iff_toNat (c : Char) : c.isUpper = true ↔ 65 ≤ c.toNat ∧ c.toNat ≤ 90 := by
  rw [Char.isUpper]
  simp only [Bool.and_eq_true, decide_eq_true_eq]
  constructor
  · rintro ⟨h1, h2⟩
    exact ⟨by simpa [Char.toNat] using UInt32.le_def.mp h1,
      by simpa [Char.toNat] using UInt32.le_def.mp h2⟩
  · rintro ⟨h1, h2⟩
    exact ⟨UInt32.le_def.mpr (by simpa [Char.toNat] using h1),
      UInt32.le_def.mpr (by simpa [Char.toNat] using h2)⟩

/-- Lowering a character never produces a basic-latin upper-case letter. -/
theorem toLower_not_isUpper (c : Char) : (Char.toLower c).isUpper = false := by
  rw [Char.toLower]
  by_cases hr : c.toNat ≥ 65 ∧ c.toNat ≤ 90
  · simp only [hr, if_true, and_self]
    have hv : (c.toNat + 32).isValidChar := Or.inl (by omega)
    have h1 : (Char.ofNat (c.toNat + 32)).toNat = c.toNat + 32 := char_toNat_ofNat _ hv
    by_contra hu
    have hu2 : (Char.ofNat (c.toNat + 32)).isUpper = true := by
      cases h : (Char.ofNat (c.toNat + 32)).isUpper
      · exact absurd h hu
      · rfl
    have := (isUpper_iff_toNat _).mp hu2
    omega
  · simp only [hr, if_false]
    by_contra hu
    have hu2 : c.isUpper = true := by
      cases h : c.isUpper
      · exact absurd h hu
      · rfl
    have := (isUpper_iff_toNat _).mp hu2
    omega

/-! ## Go string library functions used by the mapper -/

/-- Embeds Go `strings.ReplaceAll(s, " ", "-")`: for a single-character
pattern, substring replacement coincides with character-wise replacement. -/
def stringsReplaceAll (s : String) (old new : Char) : String :=
  String.mk (s.data.map fun c => if c = old then new else c)

/-- Embeds Go `strings.ToLower`, character-wise; the basic-latin case
mapping `Char.toLower` models Go's simple Unicode case mapping. -/
def stringsToLower (s : String) : String :=
  String.mk (s.data.map Char.toLower)

/-! ## Data model (github.StarredRepo, pinboard.Bookmark) -/

/-- Embeds `github.StarredRepo`; the `time.Time` star timestamp is an opaque
value never inspected by the exporter, modelled as a natural number. -/
structure StarredRepo where
  FullName : String
  HTMLURL : String
  Description : String
  Topics : List String
  StarredAt : Nat
deriving DecidableEq

/-- Embeds `pinboard.Bookmark`. -/
structure Bookmark where
  URL : String
  Title : String
  Description : String
  Tags : List String
  Private : Bool
  ToRead : Bool
deriving DecidableEq

/-! ## Mapper (export package) -/

/-- Embeds `NormaliseTags`: the early return for an empty slice, then
`strings.ToLower(strings.ReplaceAll(topic, " ", "-"))` element-wise. -/
def NormaliseTags (topics : List String) : List String :=
  if topics.length = 0 then []
  else topics.map fun topic => stringsToLower (stringsReplaceAll topic ' ' '-')

/-- Embeds `RepoToBookmark`: the sentinel tag `"github-repo"` followed by the
normalised topics, with the URL, title and description copied across,
`Private` forced true and `ToRead` forced false. -/
def RepoToBookmark (repo : StarredRepo) : Bookmark :=
  { URL := repo.HTMLURL
    Title := repo.FullName
    Description := repo.Description
    Tags := ["github-repo"] ++ NormaliseTags repo.Topics
    Private := true
    ToRead := false }

/-! ## Claims about the mapper -/

/-- C1: `NormaliseTags` preserves length and order, mapping each topic to
its lower-cased, space-to-hyphen form; no output character is a space or an
upper-case letter, and empty input yields the empty list (never an absent
value). -/
theorem normaliseTags_length_order_lowercase_nospace (T : List String) :
    (NormaliseTags T).length = T.length ∧
    NormaliseTags T = T.map (fun t => stringsToLower (stringsReplaceAll t ' ' '-')) ∧
    (∀ s, s ∈ NormaliseTags T → ∀ c, c ∈ s.data → c ≠ ' ' ∧ c.isUpper = false) ∧
    (T = [] → NormaliseTags T = []) := by
  have hmap : NormaliseTags T = T.map (fun t => stringsToLower (stringsReplaceAll t ' ' '-')) := by
    rw [NormaliseTags]
    by_cases h : T.length = 0
    · rw [if_pos h, List.length_eq_zero.mp h]
      rfl
    · rw [if_neg h]
  refine ⟨by rw [hmap, List.length_map], hmap, ?_, ?_⟩
  · intro s hs c hc
    rw [hmap] at hs
    obtain ⟨t, _, ht⟩ := List.mem_map.mp hs
    subst ht
    simp only [stringsToLower, stringsReplaceAll, List.map_map, List.mem_map] at hc
    obtain ⟨d, _, hd⟩ := hc
    subst hd
    have hr : (if d = ' ' then '-' else d) ≠ ' ' := by
      by_cases hsp : d = ' '
      · simp [hsp]
      · rw [if_neg hsp]
        exact hsp
    exact ⟨toLower_ne_space _ hr, toLower_not_isUpper _⟩
  · intro h
    rw [h]
    rfl

/-- Witness for C1 at a concrete topic list. -/
theorem normaliseTags_witness :
    (NormaliseTags ["Go Lang", "CLI"]).length = 2 :=
  (normaliseTags_length_order_lowercase_nospace ["Go Lang", "CLI"]).1

/-- C2: `RepoToBookmark` copies the URL, title and description unchanged,
prefixes the sentinel tag to the normalised topics (sentinel first even for
empty topics), and forces `Private := true`, `ToRead := false`; as a Lean
function it is deterministic and side-effect free. -/
theorem repoToBookmark_fields_sentinel_first (repo : StarredRepo) :
    RepoToBookmark repo =
      { URL := repo.HTMLURL
        Title := repo.FullName
        Description := repo.Description
        Tags := "github-repo" :: NormaliseTags repo.Topics
        Private := true
        ToRead := false } ∧
    (RepoToBookmark repo).Tags.head? = some "github-repo" := by
  exact ⟨rfl, rfl⟩

/-- Witness for C2 at a concrete repository. -/
theorem repoToBookmark_witness :
    (RepoToBookmark ⟨"owner/alpha", "https://github.com/owner/alpha", "", [], 0⟩).Tags.head? =
      some "github-repo" :=
  (repoToBookmark_fields_sentinel_first
    ⟨"owner/alpha", "https://github.com/owner/alpha", "", [], 0⟩).2

/-! ## Exporter (export package): state and effect trace -/

/-- Embeds `export.Progress`. -/
structure Progress where
  Current : Nat
  Total : Nat
  RepoName : String
  Skipped : Bool
deriving DecidableEq

/-- Embeds `export.Result`; the Go zero value is `⟨0, 0, 0⟩`. -/
structure Result where
  Total : Nat
  Added : Nat
  Skipped : Nat
deriving DecidableEq

/-- Observable calls the run makes, in order: a progress-callback invocation
or an `AddBookmark` call (recorded whether or not the call succeeds). -/
inductive Effect where
  | progress (p : Progress)
  | write (b : Bookmark)
deriving DecidableEq

/-- Bookmarks passed to `AddBookmark`, in call order. -/
def effectWrites (effs : List Effect) : List Bookmark :=
  effs.filterMap fun e =>
    match e with
    | .write b => some b
    | .progress _ => none

/-- Progress events delivered to the callback, in call order. -/
def effectEvents (effs : List Effect) : List Progress :=
  effs.filterMap fun e =>
    match e with
    | .progress p => some p
    | .write _ => none

/-- Everything a call to `Exporter.Run` produces: the returned `Result`, the
returned error (`none` for Go's nil), and the trace of observable calls. -/
structure RunTrace where
  result : Result
  error : Option Err
  effects : List Effect
deriving DecidableEq

/-- Bookmarks the run passed to `AddBookmark`. -/
def RunTrace.writes (t : RunTrace) : List Bookmark := effectWrites t.effects

/-- Progress events the run delivered. -/
def RunTrace.events (t : RunTrace) : List Progress := effectEvents t.effects

/-- Embeds the `Exporter` configuration: the dry-run flag and whether a
progress callback is registered (`OnProgress != nil`); the two clients are
supplied per run as a `CollabOracle`. -/
structure Exporter where
  DryRun : Bool
  hasOnProgress : Bool

/-- Values the collaborator clients return during one run: the result of
`GetStarredRepos`, the result of `GetBookmarkURLsByTag` for each tag (a Go
`map[string]bool` read defaults to `false`, so the set is a membership
function), and the outcome of the k-th `AddBookmark` call (`none` = nil
error). -/
structure CollabOracle where
  starred : Except Err (List StarredRepo)
  existingByTag : String → Except Err (String → Bool)
  addBookmark : Nat → Option Err

/-- Embeds the `if e.OnProgress != nil { e.OnProgress(...) }` block of the
loop body: appends the progress event to the trace when a callback is
registered. -/
def pushProgress (hasCallback : Bool) (existing : String → Bool) (total idx : Nat)
    (repo : StarredRepo) (effs : List Effect) : List Effect :=
  if hasCallback then
    effs ++ [Effect.progress ⟨idx + 1, total, repo.FullName, existing (RepoToBookmark repo).URL⟩]
  else effs

/-- Embeds the `for i, repo := range repos` loop of `Exporter.Run`: maps the
repo, tests membership, invokes the callback when registered, then either
counts a skip, or (unless dry-run) calls `AddBookmark` — aborting with the
partial result on a write error — and counts an add. `idx` is the loop
index, `wc` the number of `AddBookmark` calls made so far. -/
def runLoop (dryRun hasCallback : Bool) (existing : String → Bool)
    (addBookmark : Nat → Option Err) (total : Nat) :
    List StarredRepo → Nat → Nat → Nat → Nat → List Effect → RunTrace
  | [], _, added, skipped, _, effs => ⟨⟨total, added, skipped⟩, none, effs⟩
  | repo :: rest, idx, added, skipped, wc, effs =>
    if existing (RepoToBookmark repo).URL then
      runLoop dryRun hasCallback existing addBookmark total rest (idx + 1) added (skipped + 1)
        wc (pushProgress hasCallback existing total idx repo effs)
    else if dryRun then
      runLoop dryRun hasCallback existing addBookmark total rest (idx + 1) (added + 1) skipped
        wc (pushProgress hasCallback existing total idx repo effs)
    else
      match addBookmark wc with
      | some e =>
        ⟨⟨total, added, skipped⟩, some e,
          pushProgress hasCallback existing total idx repo effs ++
            [Effect.write (RepoToBookmark repo)]⟩
      | none =>
        runLoop dryRun hasCallback existing addBookmark total rest (idx + 1) (added + 1) skipped
          (wc + 1)
          (pushProgress hasCallback existing total idx repo effs ++
            [Effect.write (RepoToBookmark repo)])

/-- Embeds `Exporter.Run`: fetch the starred repos, fetch the existing URLs
tagged `"github-repo"`, then drive the loop; either fetch error aborts with
a zero `Result` and the error passed through unchanged. -/
def Exporter.Run (e : Exporter) (o : CollabOracle) : RunTrace :=
  match o.starred with
  | .error err => ⟨⟨0, 0, 0⟩, some err, []⟩
  | .ok repos =>
    match o.existingByTag "github-repo" with
    | .error err => ⟨⟨0, 0, 0⟩, some err, []⟩
    | .ok existing =>
      runLoop e.DryRun e.hasOnProgress existing o.addBookmark repos.length repos 0 0 0 0 []

/-! ## Specification helpers for stating loop behaviour -/

/-- Number of fetched items whose mapped URL is not already bookmarked. -/
def nonSkipCount (existing : String → Bool) (repos : List StarredRepo) : Nat :=
  (repos.filter fun r => !(existing (RepoToBookmark r).URL)).length

/-- Specification of the effect sequence the loop body emits per item: the
progress event (when a callback is registered) first, then the write (when
the item is neither skipped nor in a dry run). -/
def specItemEffects (cb dry : Bool) (existing : String → Bool) (total : Nat) :
    Nat → List StarredRepo → List Effect
  | _, [] => []
  | idx, r :: rest =>
    ((if cb then [Effect.progress ⟨idx + 1, total, r.FullName, existing (RepoToBookmark r).URL⟩]
      else []) ++
     (if existing (RepoToBookmark r).URL || dry then [] else [Effect.write (RepoToBookmark r)])) ++
    specItemEffects cb dry existing total (idx + 1) rest

/-- Specification of the progress-event sequence: one event per item, with
1-based ascending `Current`, the run total, the item name, and the
membership test of the item's mapped URL. -/
def specProgressEvents (existing : String → Bool) (total : Nat) :
    Nat → List StarredRepo → List Progress
  | _, [] => []
  | idx, r :: rest =>
    ⟨idx + 1, total, r.FullName, existing (RepoToBookmark r).URL⟩ ::
      specProgressEvents existing total (idx + 1) rest

/-! ## Helper lemmas about the specification functions -/

theorem nonSkipCount_le (existing : String → Bool) (repos : List StarredRepo) :
    nonSkipCount existing repos ≤ repos.length :=
  List.length_filter_le _ _

theorem nonSkipCount_nil (existing : String → Bool) : nonSkipCount existing [] = 0 := rfl

theorem nonSkipCount_cons (existing : String → Bool) (r : StarredRepo)
    (rest : List StarredRepo) :
    nonSkipCount existing (r :: rest) =
      (if existing (RepoToBookmark r).URL then 0 else 1) + nonSkipCount existing rest := by
  rw [nonSkipCount, nonSkipCount, List.filter_cons]
  by_cases h : existing (RepoToBookmark r).URL
  · simp [h]
  · simp [h]
    omega

theorem length_filter_not_add {α : Type} (p : α → Bool) (l : List α) :
    (l.filter fun a => !(p a)).length + (l.filter p).length = l.length := by
  induction l with
  | nil => rfl
  | cons a rest ih =>
    rw [List.filter_cons, List.filter_cons]
    by_cases h : p a
    · simp only [h, Bool.not_true, if_false, if_true, cond_true, cond_false]
      simp [ih]
      omega
    · simp only [h, Bool.not_false]
      simp [h, ih]
      omega

theorem effectWrites_append (a b : List Effect) :
    effectWrites (a ++ b) = effectWrites a ++ effectWrites b := by
  rw [effectWrites, effectWrites, effectWrites, List.filterMap_append]

theorem effectEvents_append (a b : List Effect) :
    effectEvents (a ++ b) = effectEvents a ++ effectEvents b := by
  rw [effectEvents, effectEvents, effectEvents, List.filterMap_append]

theorem pushProgress_eq (hasCallback : Bool) (existing : String → Bool) (total idx : Nat)
    (repo : StarredRepo) (effs : List Effect) :
    pushProgress hasCallback existing total idx repo effs =
      effs ++
        (if hasCallback then
          [Effect.progress ⟨idx + 1, total, repo.FullName, existing (RepoToBookmark repo).URL⟩]
        else []) := by
  rw [pushProgress]
  by_cases h : hasCallback
  · simp [h]
  · simp [h]

theorem specItemEffects_writes (cb dry : Bool) (existing : String → Bool) (total : Nat) :
    ∀ (idx : Nat) (l : List StarredRepo),
    effectWrites (specItemEffects cb dry existing total idx l) =
      (l.filter fun r => !(existing (RepoToBookmark r).URL) && !dry).map RepoToBookmark := by
  intro idx l
  induction l generalizing idx with
  | nil => rfl
  | cons r rest ih =>
    rw [specItemEffects, effectWrites_append, effectWrites_append, ih, List.filter_cons]
    by_cases hsk : existing (RepoToBookmark r).URL
    · simp [hsk, effectWrites]
    · by_cases hd : dry
      · simp [hsk, hd, effectWrites]
      · simp [hsk, hd, effectWrites]

theorem specItemEffects_events (cb dry : Bool) (existing : String → Bool) (total : Nat) :
    ∀ (idx : Nat) (l : List StarredRepo),
    effectEvents (specItemEffects cb dry existing total idx l) =
      if cb then specProgressEvents existing total idx l else [] := by
  intro idx l
  induction l generalizing idx with
  | nil =>
    cases cb
    · rfl
    · rfl
  | cons r rest ih =>
    rw [specItemEffects, effectEvents_append, effectEvents_append, ih, specProgressEvents]
    by_cases hsk : existing (RepoToBookmark r).URL || dry
    · cases cb
      · simp [hsk, effectEvents]
      · simp [hsk, effectEvents]
    · cases cb
      · simp [hsk, effectEvents]
      · simp [hsk, effectEvents]

theorem specProgressEvents_length (existing : String → Bool) (total : Nat) :
    ∀ (idx : Nat) (l : List StarredRepo),
    (specProgressEvents existing total idx l).length = l.length := by
  intro idx l
  induction l generalizing idx with
  | nil => rfl
  | cons r rest ih =>
    rw [specProgressEvents, List.length_cons, List.length_cons, ih]

/-! ## Loop characterisation lemmas -/

/-- Full characterisation of the loop on runs where no attempted write
fails: the run completes, counts every non-skipped item as added and every
other item as skipped, and emits exactly the specified per-item effects. -/
theorem runLoop_success (cb dry : Bool) (existing : String → Bool)
    (addBookmark : Nat → Option Err) (total : Nat) :
    ∀ (repos : List StarredRepo) (idx added skipped wc : Nat) (effs : List Effect),
    (dry = true ∨
      ∀ j, wc ≤ j → j < wc + nonSkipCount existing repos → addBookmark j = none) →
    runLoop dry cb existing addBookmark total repos idx added skipped wc effs =
      ⟨⟨total, added + nonSkipCount existing repos,
          skipped + (repos.length - nonSkipCount existing repos)⟩,
        none, effs ++ specItemEffects cb dry existing total idx repos⟩ := by
  intro repos
  induction repos with
  | nil =>
    intro idx added skipped wc effs h
    simp [runLoop, nonSkipCount, specItemEffects]
  | cons r rest ih =>
    intro idx added skipped wc effs h
    rw [runLoop]
    by_cases hsk : existing (RepoToBookmark r).URL
    · rw [if_pos hsk]
      have hcnt : nonSkipCount existing (r :: rest) = nonSkipCount existing rest := by
        rw [nonSkipCount_cons, if_pos hsk, Nat.zero_add]
      have hle := nonSkipCount_le existing rest
      have hrec := ih (idx + 1) added (skipped + 1) wc
        (pushProgress cb existing total idx r effs)
        (by
          rcases h with hd | hw
          · exact Or.inl hd
          · refine Or.inr (fun j h1 h2 => hw j h1 ?_)
            rw [hcnt]
            exact h2)
      have hA : added + nonSkipCount existing (r :: rest) = added + nonSkipCount existing rest := by
        rw [hcnt]
      have hS : skipped + ((r :: rest).length - nonSkipCount existing (r :: rest)) =
          skipped + 1 + (rest.length - nonSkipCount existing rest) := by
        rw [hcnt]
        simp only [List.length_cons]
        omega
      rw [hrec, pushProgress_eq, specItemEffects, hA, hS]
      simp [hsk, List.append_assoc]
    · rw [if_neg hsk]
      have hcnt : nonSkipCount existing (r :: rest) = 1 + nonSkipCount existing rest := by
        rw [nonSkipCount_cons, if_neg hsk]
      have hle := nonSkipCount_le existing rest
      by_cases hd : dry
      · rw [if_pos hd]
        have hrec := ih (idx + 1) (added + 1) skipped wc
          (pushProgress cb existing total idx r effs) (Or.inl hd)
        have hA : added + nonSkipCount existing (r :: rest) =
            added + 1 + nonSkipCount existing rest := by
          rw [hcnt]
          omega
        have hS : skipped + ((r :: rest).length - nonSkipCount existing (r :: rest)) =
            skipped + (rest.length - nonSkipCount existing rest) := by
          rw [hcnt]
          simp only [List.length_cons]
          omega
        rw [hrec, pushProgress_eq, specItemEffects, hA, hS]
        simp [hsk, hd, List.append_assoc]
      · rw [if_neg hd]
        rcases h with hd2 | hw
        · exact absurd hd2 hd
        have hw0 : addBookmark wc = none := by
          apply hw wc (Nat.le_refl wc)
          rw [hcnt]
          omega
        rw [hw0]
        have hrec := ih (idx + 1) (added + 1) skipped (wc + 1)
          (pushProgress cb existing total idx r effs ++ [Effect.write (RepoToBookmark r)])
          (Or.inr (fun j h1 h2 => hw j (by omega) (by rw [hcnt]; omega)))
        have hA : added + nonSkipCount existing (r :: rest) =
            added + 1 + nonSkipCount existing rest := by
          rw [hcnt]
          omega
        have hS : skipped + ((r :: rest).length - nonSkipCount existing (r :: rest)) =
            skipped + (rest.length - nonSkipCount existing rest) := by
          rw [hcnt]
          simp only [List.length_cons]
          omega
        rw [hrec, pushProgress_eq, specItemEffects, hA, hS]
        simp [hsk, hd, List.append_assoc]

/-- Whenever the loop returns a nil error, the final `Total` is the `total`
argument and `Added + Skipped` accounts for every remaining item on top of
the accumulators. -/
theorem runLoop_error_none_sum (cb dry : Bool) (existing : String → Bool)
    (addBookmark : Nat → Option Err) (total : Nat) :
    ∀ (repos : List StarredRepo) (idx added skipped wc : Nat) (effs : List Effect),
    (runLoop dry cb existing addBookmark total repos idx added skipped wc effs).error = none →
    (runLoop dry cb existing addBookmark total repos idx added skipped wc effs).result.Total
        = total ∧
    (runLoop dry cb existing addBookmark total repos idx added skipped wc effs).result.Added +
      (runLoop dry cb existing addBookmark total repos idx added skipped wc effs).result.Skipped
        = added + skipped + repos.length := by
  intro repos
  induction repos with
  | nil =>
    intro idx added skipped wc effs h
    simp [runLoop]
  | cons r rest ih =>
    intro idx added skipped wc effs h
    rw [runLoop] at h ⊢
    by_cases hsk : existing (RepoToBookmark r).URL
    · rw [if_pos hsk] at h ⊢
      have := ih (idx + 1) added (skipped + 1) wc
        (pushProgress cb existing total idx r effs) h
      refine ⟨this.1, ?_⟩
      rw [this.2]
      simp only [List.length_cons]
      omega
    · rw [if_neg hsk] at h ⊢
      by_cases hd : dry
      · rw [if_pos hd] at h ⊢
        have := ih (idx + 1) (added + 1) skipped wc
          (pushProgress cb existing total idx r effs) h
        refine ⟨this.1, ?_⟩
        rw [this.2]
        simp only [List.length_cons]
        omega
      · rw [if_neg hd] at h ⊢
        cases hw : addBookmark wc with
        | some e =>
          rw [hw] at h
          simp at h
        | none =>
          rw [hw] at h
          have hres := ih (idx + 1) (added + 1) skipped (wc + 1)
            (pushProgress cb existing total idx r effs ++ [Effect.write (RepoToBookmark r)]) h
          refine ⟨hres.1, ?_⟩
          show (runLoop dry cb existing addBookmark total rest (idx + 1) (added + 1) skipped
              (wc + 1)
              (pushProgress cb existing total idx r effs ++
                [Effect.write (RepoToBookmark r)])).result.Added +
            (runLoop dry cb existing addBookmark total rest (idx + 1) (added + 1) skipped
              (wc + 1)
              (pushProgress cb existing total idx r effs ++
                [Effect.write (RepoToBookmark r)])).result.Skipped =
            added + skipped + (r :: rest).length
          rw [hres.2]
          simp only [List.length_cons]
          omega

/-- Full characterisation of the loop when the item at position `i` is not
skipped, every earlier write succeeds, and the write for item `i` fails: the
loop aborts there with the accumulated counts, the failing error, and only
the effects of the first `i + 1` items. -/
theorem runLoop_write_failure (cb : Bool) (existing : String → Bool)
    (addBookmark : Nat → Option Err) (total : Nat) (err : Err) :
    ∀ (repos : List StarredRepo) (i : Nat) (hi : i < repos.length)
      (idx added skipped wc : Nat) (effs : List Effect),
    existing (RepoToBookmark (repos.get ⟨i, hi⟩)).URL = false →
    (∀ j, wc ≤ j → j < wc + nonSkipCount existing (repos.take i) → addBookmark j = none) →
    addBookmark (wc + nonSkipCount existing (repos.take i)) = some err →
    runLoop false cb existing addBookmark total repos idx added skipped wc effs =
      ⟨⟨total, added + nonSkipCount existing (repos.take i),
          skipped + (i - nonSkipCount existing (repos.take i))⟩,
        some err, effs ++ specItemEffects cb false existing total idx (repos.take (i + 1))⟩ := by
  intro repos
  induction repos with
  | nil =>
    intro i hi
    exact absurd hi (by simp)
  | cons r rest ih =>
    intro i hi idx added skipped wc effs hskip hok hfail
    cases i with
    | zero =>
      have hsk : existing (RepoToBookmark r).URL = false := hskip
      simp only [List.take_zero, nonSkipCount_nil, Nat.add_zero] at hok hfail
      rw [runLoop, hsk, if_neg Bool.false_ne_true, if_neg Bool.false_ne_true, hfail]
      simp [hsk, pushProgress_eq, specItemEffects, nonSkipCount_nil, List.take_succ_cons,
        List.take_zero, List.append_assoc]
    | succ n =>
      have hn : n < rest.length := by
        simpa using hi
      have hget : (r :: rest).get ⟨n + 1, hi⟩ = rest.get ⟨n, hn⟩ := rfl
      rw [hget] at hskip
      rw [runLoop]
      by_cases hsk : existing (RepoToBookmark r).URL
      · rw [if_pos hsk]
        have hcnt : nonSkipCount existing ((r :: rest).take (n + 1)) =
            nonSkipCount existing (rest.take n) := by
          rw [List.take_succ_cons, nonSkipCount_cons, if_pos hsk, Nat.zero_add]
        rw [hcnt] at hok hfail
        have hrec := ih n hn (idx + 1) added (skipped + 1) wc
          (pushProgress cb existing total idx r effs) hskip hok hfail
        have hle : nonSkipCount existing (rest.take n) ≤ (rest.take n).length :=
          nonSkipCount_le existing (rest.take n)
        have hlen : (rest.take n).length ≤ n := by
          simp [List.length_take]
        have hS : skipped + (n + 1 - nonSkipCount existing ((r :: rest).take (n + 1))) =
            skipped + 1 + (n - nonSkipCount existing (rest.take n)) := by
          rw [hcnt]
          omega
        rw [hrec, pushProgress_eq, hS, hcnt, List.take_succ_cons, specItemEffects]
        simp [hsk, List.append_assoc]
      · rw [if_neg hsk]
        have hskB : existing (RepoToBookmark r).URL = false := by
          cases h : existing (RepoToBookmark r).URL
          · rfl
          · exact absurd h hsk
        have hcnt : nonSkipCount existing ((r :: rest).take (n + 1)) =
            1 + nonSkipCount existing (rest.take n) := by
          rw [List.take_succ_cons, nonSkipCount_cons, if_neg hsk]
        rw [if_neg Bool.false_ne_true]
        have hw0 : addBookmark wc = none := by
          apply hok wc (Nat.le_refl wc)
          rw [hcnt]
          omega
        rw [hw0]
        have hok2 : ∀ j, wc + 1 ≤ j → j < wc + 1 + nonSkipCount existing (rest.take n) →
            addBookmark j = none := by
          intro j h1 h2
          apply hok j (by omega)
          rw [hcnt]
          omega
        have hfail2 : addBookmark (wc + 1 + nonSkipCount existing (rest.take n)) = some err := by
          have : wc + 1 + nonSkipCount existing (rest.take n) =
              wc + nonSkipCount existing ((r :: rest).take (n + 1)) := by
            rw [hcnt]
            omega
          rw [this]
          exact hfail
        have hrec := ih n hn (idx + 1) (added + 1) skipped (wc + 1)
          (pushProgress cb existing total idx r effs ++ [Effect.write (RepoToBookmark r)])
          hskip hok2 hfail2
        have hle : nonSkipCount existing (rest.take n) ≤ (rest.take n).length :=
          nonSkipCount_le existing (rest.take n)
        have hlen : (rest.take n).length ≤ n := by
          simp [List.length_take]
        have hA : added + nonSkipCount existing ((r :: rest).take (n + 1)) =
            added + 1 + nonSkipCount existing (rest.take n) := by
          rw [hcnt]
          omega
        have hS : skipped + (n + 1 - nonSkipCount existing ((r :: rest).take (n + 1))) =
            skipped + (n - nonSkipCount existing (rest.take n)) := by
          rw [hcnt]
          omega
        rw [hrec, pushProgress_eq, hA, hS, List.take_succ_cons, specItemEffects]
        simp [hsk, List.append_assoc]

/-! ## Run unfolding helpers -/

theorem run_starred_error (e : Exporter) (o : CollabOracle) (err : Err)
    (h : o.starred = .error err) :
    Exporter.Run e o = ⟨⟨0, 0, 0⟩, some err, []⟩ := by
  simp [Exporter.Run, h]

theorem run_existing_error (e : Exporter) (o : CollabOracle) (err : Err)
    (repos : List StarredRepo) (hst : o.starred = .ok repos)
    (hex : o.existingByTag "github-repo" = .error err) :
    Exporter.Run e o = ⟨⟨0, 0, 0⟩, some err, []⟩ := by
  simp [Exporter.Run, hst, hex]

theorem run_ok (e : Exporter) (o : CollabOracle)
    (repos : List StarredRepo) (existing : String → Bool)
    (hst : o.starred = .ok repos)
    (hex : o.existingByTag "github-repo" = .ok existing) :
    Exporter.Run e o =
      runLoop e.DryRun e.hasOnProgress existing o.addBookmark repos.length repos 0 0 0 0 [] := by
  simp [Exporter.Run, hst, hex]

/-! ## Concrete fixtures for counterexamples and witnesses -/

def repoAlpha : StarredRepo :=
  ⟨"owner/alpha", "https://github.com/owner/alpha", "Alpha repository", ["Go"], 0⟩

def repoBeta : StarredRepo :=
  ⟨"owner/beta", "https://github.com/owner/beta", "", [], 0⟩

/-- Oracle whose starred-repo fetch fails. -/
def oracleFetchFail : CollabOracle :=
  ⟨.error "fetch failed", fun _ => .ok fun _ => false, fun _ => none⟩

/-- Oracle with one fetched repo, an empty bookmark store, and a failing
write. -/
def oracleOneWriteFail : CollabOracle :=
  ⟨.ok [repoAlpha], fun _ => .ok fun _ => false, fun _ => some "write failed"⟩

/-! ## Claims C3 and C5 -/

/-- C3 counterexample: a run aborted by a write error returns
`Total = 1` but `Added + Skipped = 0`, so `Total = Added + Skipped` does not
hold on the write-error branch. -/
theorem run_total_invariant_counterexample :
    ¬ ((Exporter.Run ⟨false, false⟩ oracleOneWriteFail).result.Total =
      (Exporter.Run ⟨false, false⟩ oracleOneWriteFail).result.Added +
        (Exporter.Run ⟨false, false⟩ oracleOneWriteFail).result.Skipped) := by
  decide

/-- C3 (amended): on every run that is not aborted by a write error — full
success, fetch error, or list error — the returned Result satisfies
`Total = Added + Skipped`; a run aborted by a write error instead has
`Added + Skipped` equal to the number of items processed before the
failure. -/
theorem run_total_invariant_amended (e : Exporter) (o : CollabOracle)
    (h : (∃ err, o.starred = .error err) ∨
      (∃ err, o.existingByTag "github-repo" = .error err) ∨
      (Exporter.Run e o).error = none) :
    (Exporter.Run e o).result.Total =
      (Exporter.Run e o).result.Added + (Exporter.Run e o).result.Skipped := by
  rcases h with ⟨err, herr⟩ | ⟨err, herr⟩ | hnone
  · rw [run_starred_error e o err herr]
    rfl
  · cases hst : o.starred with
    | error e2 =>
      rw [run_starred_error e o e2 hst]
      rfl
    | ok repos =>
      rw [run_existing_error e o err repos hst herr]
      rfl
  · cases hst : o.starred with
    | error e2 =>
      rw [run_starred_error e o e2 hst]
      rfl
    | ok repos =>
      cases hex : o.existingByTag "github-repo" with
      | error e2 =>
        rw [run_existing_error e o e2 repos hst hex]
        rfl
      | ok existing =>
        have hrun := run_ok e o repos existing hst hex
        rw [hrun] at hnone ⊢
        have hsum := runLoop_error_none_sum e.hasOnProgress e.DryRun existing o.addBookmark
          repos.length repos 0 0 0 0 [] hnone
        rw [hsum.1, hsum.2]
        omega

/-- Witness for the amended C3 on the fetch-error branch. -/
theorem run_total_invariant_witness :
    (Exporter.Run ⟨false, false⟩ oracleFetchFail).result.Total =
      (Exporter.Run ⟨false, false⟩ oracleFetchFail).result.Added +
        (Exporter.Run ⟨false, false⟩ oracleFetchFail).result.Skipped :=
  run_total_invariant_amended ⟨false, false⟩ oracleFetchFail (Or.inl ⟨"fetch failed", rfl⟩)

/-- C5: if the starred-repo fetch fails, or the tag-filtered bookmark
listing fails, the run aborts with the zero `Result`, an empty effect trace
(in particular the store's write operation is never invoked), and the
collaborator's error value propagated unchanged. -/
theorem run_collab_error_zero_result (e : Exporter) (o : CollabOracle) (err : Err) :
    (o.starred = .error err → Exporter.Run e o = ⟨⟨0, 0, 0⟩, some err, []⟩) ∧
    (∀ repos, o.starred = .ok repos → o.existingByTag "github-repo" = .error err →
      Exporter.Run e o = ⟨⟨0, 0, 0⟩, some err, []⟩) :=
  ⟨fun h => run_starred_error e o err h,
    fun repos hst hex => run_existing_error e o err repos hst hex⟩

/-- Witness for C5 at a concrete failing fetch. -/
theorem run_collab_error_witness :
    Exporter.Run ⟨false, false⟩ oracleFetchFail = ⟨⟨0, 0, 0⟩, some "fetch failed", []⟩ :=
  (run_collab_error_zero_result ⟨false, false⟩ oracleFetchFail "fetch failed").1 rfl

/-! ## Claims C6, C7 and C8 -/

/-- C6: in dry-run mode the store's write operation is never invoked, the
run completes without error, and for `n` fetched items of which `s` are
already present the result reports `Added = n - s` and `Skipped = s`. -/
theorem run_dry_run_no_writes (e : Exporter) (o : CollabOracle)
    (repos : List StarredRepo) (existing : String → Bool)
    (hst : o.starred = .ok repos)
    (hex : o.existingByTag "github-repo" = .ok existing)
    (hdry : e.DryRun = true) :
    (Exporter.Run e o).writes = [] ∧
    (Exporter.Run e o).error = none ∧
    (Exporter.Run e o).result =
      ⟨repos.length,
        repos.length - (repos.filter fun r => existing (RepoToBookmark r).URL).length,
        (repos.filter fun r => existing (RepoToBookmark r).URL).length⟩ := by
  have hrun := run_ok e o repos existing hst hex
  have hloop := runLoop_success e.hasOnProgress e.DryRun existing o.addBookmark repos.length
    repos 0 0 0 0 [] (Or.inl hdry)
  rw [hrun, hloop]
  have hsplit := length_filter_not_add (fun r => existing (RepoToBookmark r).URL) repos
  have hcnt : nonSkipCount existing repos +
      (repos.filter fun r => existing (RepoToBookmark r).URL).length = repos.length := hsplit
  refine ⟨?_, rfl, ?_⟩
  · show effectWrites ([] ++ specItemEffects e.hasOnProgress e.DryRun existing repos.length 0 repos)
      = []
    rw [List.nil_append, specItemEffects_writes]
    simp [hdry]
  · show (⟨repos.length, 0 + nonSkipCount existing repos,
        0 + (repos.length - nonSkipCount existing repos)⟩ : Result) = _
    refine congrArg₂ (Result.mk repos.length) ?_ ?_
    · omega
    · omega

/-- Oracle for the dry-run witness: two fetched repos, the first already
bookmarked. -/
def oracleDryRun : CollabOracle :=
  ⟨.ok [repoAlpha, repoBeta],
    fun _ => .ok fun u => u == "https://github.com/owner/alpha",
    fun _ => none⟩

/-- Witness for C6 at a concrete dry run. -/
theorem run_dry_run_witness :
    (Exporter.Run ⟨true, false⟩ oracleDryRun).writes = [] :=
  (run_dry_run_no_writes ⟨true, false⟩ oracleDryRun [repoAlpha, repoBeta]
    (fun u => u == "https://github.com/owner/alpha") rfl rfl rfl).1

/-- C8: when the existing-URL set contains the URL of every fetched item
(as after a fully successful first run over an unchanged source), the run
returns `Added = 0`, `Skipped = Total`, no error, and attempts no write. -/
theorem run_idempotent_all_existing (e : Exporter) (o : CollabOracle)
    (repos : List StarredRepo) (existing : String → Bool)
    (hst : o.starred = .ok repos)
    (hex : o.existingByTag "github-repo" = .ok existing)
    (hall : ∀ r, r ∈ repos → existing (RepoToBookmark r).URL = true) :
    (Exporter.Run e o).result = ⟨repos.length, 0, repos.length⟩ ∧
    (Exporter.Run e o).error = none ∧
    (Exporter.Run e o).writes = [] := by
  have hcnt : nonSkipCount existing repos = 0 := by
    rw [nonSkipCount, List.length_eq_zero]
    rw [List.filter_eq_nil_iff]
    intro r hr
    simp [hall r hr]
  have hrun := run_ok e o repos existing hst hex
  have hloop := runLoop_success e.hasOnProgress e.DryRun existing o.addBookmark repos.length
    repos 0 0 0 0 []
    (Or.inr (fun j h1 h2 => absurd h2 (by rw [hcnt]; omega)))
  rw [hrun, hloop]
  refine ⟨by rw [hcnt]; simp, rfl, ?_⟩
  show effectWrites ([] ++ specItemEffects e.hasOnProgress e.DryRun existing repos.length 0 repos)
    = []
  rw [List.nil_append, specItemEffects_writes]
  have hnil : (repos.filter fun r => !(existing (RepoToBookmark r).URL) && !e.DryRun) = [] := by
    rw [List.filter_eq_nil_iff]
    intro r hr
    simp [hall r hr]
  rw [hnil]
  rfl

/-- Oracle for the idempotence witness: both repos already bookmarked. -/
def oracleAllExisting : CollabOracle :=
  ⟨.ok [repoAlpha, repoBeta], fun _ => .ok fun _ => true, fun _ => none⟩

/-- Witness for C8 at a concrete second run. -/
theorem run_idempotent_witness :
    (Exporter.Run ⟨false, false⟩ oracleAllExisting).result = ⟨2, 0, 2⟩ ∧
    (Exporter.Run ⟨false, false⟩ oracleAllExisting).writes = [] := by
  have h := run_idempotent_all_existing ⟨false, false⟩ oracleAllExisting
    [repoAlpha, repoBeta] (fun _ => true) rfl rfl (fun r hr => rfl)
  exact ⟨h.1, h.2.2⟩

/-- Oracle for the C7 counterexample: two fetched repos, empty store, and a
write that always fails. -/
def oracleProgressFail : CollabOracle :=
  ⟨.ok [repoAlpha, repoBeta], fun _ => .ok fun _ => false, fun _ => some "write failed"⟩

/-- C7 counterexample: on a run with a registered callback aborted by a
write error, the callback fires only once although `Total = 2`, so the
invocation count does not equal `Total` on every run. -/
theorem run_progress_counterexample :
    ¬ ((Exporter.Run ⟨false, true⟩ oracleProgressFail).events.length =
      (Exporter.Run ⟨false, true⟩ oracleProgressFail).result.Total) := by
  decide

/-- C7 (amended): on every run with a registered progress callback in which
no attempted write fails (dry-run, or every needed write succeeding), the
callback is invoked exactly once per fetched item, in order, with `Current`
ascending from 1 to `Total`, `Total` the fetched-sequence length, the item
name, and `Skipped` equal to the membership test of the item's mapped URL;
each event precedes the item's write in the effect trace, and the
invocation count equals `Total`. -/
theorem run_progress_amended (e : Exporter) (o : CollabOracle)
    (repos : List StarredRepo) (existing : String → Bool)
    (hst : o.starred = .ok repos)
    (hex : o.existingByTag "github-repo" = .ok existing)
    (hcb : e.hasOnProgress = true)
    (hw : e.DryRun = true ∨
      ∀ j, j < nonSkipCount existing repos → o.addBookmark j = none) :
    (Exporter.Run e o).events = specProgressEvents existing repos.length 0 repos ∧
    (Exporter.Run e o).events.length = (Exporter.Run e o).result.Total ∧
    (Exporter.Run e o).effects =
      specItemEffects e.hasOnProgress e.DryRun existing repos.length 0 repos := by
  have hrun := run_ok e o repos existing hst hex
  have hloop := runLoop_success e.hasOnProgress e.DryRun existing o.addBookmark repos.length
    repos 0 0 0 0 []
    (by
      rcases hw with h | h
      · exact Or.inl h
      · exact Or.inr (fun j h1 h2 => h j (by omega)))
  rw [hrun, hloop]
  have hev : effectEvents
      ([] ++ specItemEffects e.hasOnProgress e.DryRun existing repos.length 0 repos) =
      specProgressEvents existing repos.length 0 repos := by
    rw [List.nil_append, specItemEffects_events, hcb]
    rfl
  refine ⟨hev, ?_, by rw [List.nil_append]⟩
  show (effectEvents
      ([] ++ specItemEffects e.hasOnProgress e.DryRun existing repos.length 0 repos)).length = _
  rw [hev, specProgressEvents_length]

/-- Oracle for the C7 witness: two fetched repos, empty store, writes
succeed. -/
def oracleProgressOk : CollabOracle :=
  ⟨.ok [repoAlpha, repoBeta], fun _ => .ok fun _ => false, fun _ => none⟩

/-- Witness for the amended C7 at a concrete successful run. -/
theorem run_progress_witness :
    (Exporter.Run ⟨false, true⟩ oracleProgressOk).events.length =
      (Exporter.Run ⟨false, true⟩ oracleProgressOk).result.Total :=
  (run_progress_amended ⟨false, true⟩ oracleProgressOk [repoAlpha, repoBeta]
    (fun _ => false) rfl rfl rfl (Or.inr fun _ _ => rfl)).2.1

/-! ## Claim C4 -/

/-- C4: if the k-th attempted write fails, the run aborts immediately with
the partial result — `Added = k - 1`, `Skipped` the skip count so far,
`Total` still the full fetched count — together with the write error; the
attempted writes are exactly the non-skipped items up to and including the
failing one (so `k` writes), and the effect trace covers only the first
`i + 1` items, so no later item gets a progress event or a write. -/
theorem run_write_failure_aborts (e : Exporter) (o : CollabOracle)
    (repos : List StarredRepo) (existing : String → Bool) (i k : Nat) (err : Err)
    (hst : o.starred = .ok repos)
    (hex : o.existingByTag "github-repo" = .ok existing)
    (hdry : e.DryRun = false)
    (hi : i < repos.length)
    (hk : 1 ≤ k)
    (hskip : existing (RepoToBookmark (repos.get ⟨i, hi⟩)).URL = false)
    (hprev : nonSkipCount existing (repos.take i) = k - 1)
    (hok : ∀ j, j < k - 1 → o.addBookmark j = none)
    (hfail : o.addBookmark (k - 1) = some err) :
    (Exporter.Run e o).error = some err ∧
    (Exporter.Run e o).result = ⟨repos.length, k - 1, i - (k - 1)⟩ ∧
    (Exporter.Run e o).effects =
      specItemEffects e.hasOnProgress false existing repos.length 0 (repos.take (i + 1)) ∧
    (Exporter.Run e o).writes =
      ((repos.take (i + 1)).filter fun r => !(existing (RepoToBookmark r).URL)).map
        RepoToBookmark ∧
    (Exporter.Run e o).writes.length = k ∧
    (e.hasOnProgress = true →
      (Exporter.Run e o).events =
        specProgressEvents existing repos.length 0 (repos.take (i + 1))) := by
  have hok2 : ∀ j, 0 ≤ j → j < 0 + nonSkipCount existing (repos.take i) →
      o.addBookmark j = none := by
    intro j h1 h2
    apply hok
    rw [hprev] at h2
    omega
  have hfail2 : o.addBookmark (0 + nonSkipCount existing (repos.take i)) = some err := by
    rw [hprev, Nat.zero_add]
    exact hfail
  have hrun := run_ok e o repos existing hst hex
  have hloop := runLoop_write_failure e.hasOnProgress existing o.addBookmark repos.length err
    repos i hi 0 0 0 0 [] hskip hok2 hfail2
  rw [hrun, hdry, hloop]
  have htake : repos.take (i + 1) = repos.take i ++ [repos.get ⟨i, hi⟩] := by
    rw [List.take_succ]
    congr 1
    rw [List.getElem?_eq_getElem hi]
    rfl
  have hwr : effectWrites
      ([] ++ specItemEffects e.hasOnProgress false existing repos.length 0 (repos.take (i + 1)))
      = ((repos.take (i + 1)).filter fun r => !(existing (RepoToBookmark r).URL)).map
        RepoToBookmark := by
    rw [List.nil_append, specItemEffects_writes]
    simp
  refine ⟨rfl, ?_, by rw [List.nil_append], hwr, ?_, ?_⟩
  · show (⟨repos.length, 0 + nonSkipCount existing (repos.take i),
        0 + (i - nonSkipCount existing (repos.take i))⟩ : Result) = _
    rw [hprev]
    refine congrArg₂ (Result.mk repos.length) ?_ ?_
    · omega
    · omega
  · show (effectWrites
        ([] ++ specItemEffects e.hasOnProgress false existing repos.length 0
          (repos.take (i + 1)))).length = k
    rw [hwr, List.length_map, htake, List.filter_append]
    have h1 : ((repos.take i).filter fun r => !(existing (RepoToBookmark r).URL)).length
        = k - 1 := hprev
    have hsk2 : existing (RepoToBookmark repos[i]).URL = false := hskip
    have h2 : (List.filter (fun r => !(existing (RepoToBookmark r).URL))
        [repos.get ⟨i, hi⟩]).length = 1 := by
      simp [List.filter, hsk2]
    rw [List.length_append, h1, h2]
    omega
  · intro hcb
    show effectEvents
        ([] ++ specItemEffects e.hasOnProgress false existing repos.length 0
          (repos.take (i + 1))) = _
    rw [List.nil_append, specItemEffects_events, hcb]
    rfl

/-- Oracle for the C4 witness: alpha already bookmarked, beta not, and the
first write fails. -/
def oracleSecondItemWriteFail : CollabOracle :=
  ⟨.ok [repoAlpha, repoBeta],
    fun _ => .ok fun u => u == "https://github.com/owner/alpha",
    fun _ => some "write failed"⟩

/-- Witness for C4: the first attempted write (k = 1) fails on the second
item (i = 1). -/
theorem run_write_failure_witness :
    (Exporter.Run ⟨false, false⟩ oracleSecondItemWriteFail).error = some "write failed" ∧
    (Exporter.Run ⟨false, false⟩ oracleSecondItemWriteFail).result = ⟨2, 0, 1⟩ := by
  have h := run_write_failure_aborts ⟨false, false⟩ oracleSecondItemWriteFail
    [repoAlpha, repoBeta] (fun u => u == "https://github.com/owner/alpha") 1 1 "write failed"
    rfl rfl rfl (by decide) (by decide) (by decide) (by decide)
    (fun j hj => absurd hj (by omega)) rfl
  exact ⟨h.1, h.2.1⟩

/-! ## Pinboard client: rate-limit wait in AddBookmark (claim C9) -/

/-- Outcome of the `select` between the caller's `ctx.Done()` channel and
the rate-limit timer in `Client.AddBookmark`: which of the two fires
first. -/
inductive WaitOutcome where
  | ctxDone
  | timerFired
deriving DecidableEq

/-- Errors `AddBookmark` can return. `ctxCancelled` is the distinct
cancellation error value `ctx.Err()` of a cancelled context; the others
wrap the HTTP-layer failures (request construction or transport, non-200
status, body read, JSON parse, non-"done" result_code). -/
inductive PinboardError where
  | ctxCancelled
  | requestFailed (msg : String)
  | apiStatus (status : Nat) (body : String)
  | readFailed (msg : String)
  | parseFailed (msg : String)
  | apiResultCode (code : String)
deriving DecidableEq

/-- Observable outcome of one `AddBookmark` call: the returned error
(`none` = nil), whether the HTTP write request to `posts/add` was issued,
and whether the rate-limit wait ran to completion. -/
structure AddBookmarkTrace where
  error : Option PinboardError
  requestIssued : Bool
  waitCompleted : Bool
deriving DecidableEq

/-- Embeds the control flow of `Client.AddBookmark` (pinboard/client.go):
when `lastCall` is set (`lastCallIsZero = false`) and the time elapsed
since it is below `minDelay`, the call waits out the remainder; if the
caller's cancellation signal fires first (`waitOutcome = ctxDone`) the
timer is stopped and `ctx.Err()` is returned without issuing the HTTP
request; otherwise the request is issued and `httpOutcome` — the combined
outcome of the request, response-status, body-read, JSON-parse and
result_code steps — is returned. -/
def addBookmarkRun (lastCallIsZero : Bool) (elapsed minDelay : Nat)
    (waitOutcome : WaitOutcome) (httpOutcome : Option PinboardError) : AddBookmarkTrace :=
  if !lastCallIsZero && decide (elapsed < minDelay) then
    match waitOutcome with
    | .ctxDone => ⟨some .ctxCancelled, false, false⟩
    | .timerFired => ⟨httpOutcome, true, true⟩
  else ⟨httpOutcome, true, false⟩

/-- C9: if the caller's context is cancelled while `AddBookmark` is waiting
out the remainder of the minimum inter-call delay, the call returns the
distinct context-cancellation error without issuing the HTTP write request
and without completing the wait, whatever the HTTP layer would have
done. -/
theorem addBookmark_cancelled_during_wait (elapsed minDelay : Nat)
    (httpOutcome : Option PinboardError) (hwait : elapsed < minDelay) :
    addBookmarkRun false elapsed minDelay .ctxDone httpOutcome =
      ⟨some PinboardError.ctxCancelled, false, false⟩ := by
  simp [addBookmarkRun, hwait]

/-- Witness for C9 at a concrete remaining delay. -/
theorem addBookmark_cancelled_witness :
    addBookmarkRun false 1 3 .ctxDone none =
      ⟨some PinboardError.ctxCancelled, false, false⟩ :=
  addBookmark_cancelled_during_wait 1 3 none (by decide)

/-! ## CLI progress bar (claim C10) -/

/-- Embeds Go `strings.Repeat` for a single-character string; Go panics
when the count is negative, modelled as `none`. -/
def stringsRepeat (c : Char) (count : Int) : Option String :=
  if count < 0 then none
  else some (String.mk (List.replicate count.toNat c))

/-- Two's-complement wrap into Go's 64-bit `int` range `[-2 ^ 63, 2 ^ 63)`;
every arithmetic result inside `progressBar` is reduced by this map, as Go
int arithmetic wraps on overflow. -/
def wrap64 (n : Int) : Int :=
  (n + 2 ^ 63) % 2 ^ 64 - 2 ^ 63

/-- Values already inside the 64-bit range are fixed by `wrap64`. -/
theorem wrap64_eq_of_range (n : Int) (h1 : -(2 ^ 63) ≤ n) (h2 : n < 2 ^ 63) :
    wrap64 n = n := by
  rw [wrap64]
  omega

/-- Embeds `progressBar` (main.go). Go ints are modelled as 64-bit
two's-complement integers: each arithmetic result is wrapped with `wrap64`,
and Go's `/` is the truncated division `Int.tdiv` (whose lone overflow
case, `MinInt64 / -1`, wraps back to `MinInt64` under `wrap64`, as in Go).
The guard returns the all-spaces bar before any division is evaluated when
`total == 0`. -/
def progressBar (current total width : Int) : Option String :=
  if total = 0 then
    (stringsRepeat ' ' width).map fun sp => "[" ++ sp ++ "]"
  else
    (stringsRepeat '=' (wrap64 (Int.tdiv (wrap64 (width * current)) total))).bind fun f =>
      (stringsRepeat ' '
          (wrap64 (width - wrap64 (Int.tdiv (wrap64 (width * current)) total)))).map fun e =>
        "[" ++ f ++ e ++ "]"

/-- C10 counterexample: with `current = 2 > total = 1` and width 30 the
computed empty-space count is negative and `strings.Repeat` panics, so
`progressBar` is not total for every `current` and non-negative width. -/
theorem progressBar_counterexample : progressBar 2 1 30 = none := by decide

/-- C10 (amended): for every non-negative width in Go's `int` range,
`progressBar` is total on the inputs the guard is designed for: when
`total = 0` it returns exactly `width` spaces between brackets without
evaluating the division, and when `0 ≤ current ≤ total` with `total`
non-zero and the product `width * current` inside the 64-bit range (no
overflow) it returns a bar; the division by `total` is only evaluated on
this non-zero branch. -/
theorem progressBar_amended (current total width : Int)
    (hw : 0 ≤ width) (hwlt : width < 2 ^ 63) :
    (total = 0 → progressBar current total width =
      some ("[" ++ String.mk (List.replicate width.toNat ' ') ++ "]")) ∧
    (0 < total → 0 ≤ current → current ≤ total → width * current < 2 ^ 63 →
      (progressBar current total width).isSome = true) := by
  constructor
  · intro h0
    rw [progressBar, if_pos h0, stringsRepeat, if_neg (by omega)]
    rfl
  · intro hpos hc0 hct hovf
    rw [progressBar, if_neg (by omega)]
    have hmul0 : 0 ≤ width * current := mul_nonneg hw hc0
    have hwm : wrap64 (width * current) = width * current :=
      wrap64_eq_of_range _ (by omega) hovf
    rw [hwm]
    have htd : Int.tdiv (width * current) total = (width * current) / total :=
      Int.tdiv_eq_ediv hmul0 (by omega)
    have hfn : 0 ≤ Int.tdiv (width * current) total := by
      rw [htd]
      exact Int.ediv_nonneg hmul0 (by omega)
    have hfw : Int.tdiv (width * current) total ≤ width := by
      rw [htd]
      have h1 : width * current ≤ width * total := mul_le_mul_of_nonneg_left hct hw
      have h2 : (width * current) / total ≤ (width * total) / total :=
        Int.ediv_le_ediv hpos h1
      have h3 : (width * total) / total = width := Int.mul_ediv_cancel width (by omega)
      omega
    have hwf : wrap64 (Int.tdiv (width * current) total) =
        Int.tdiv (width * current) total :=
      wrap64_eq_of_range _ (by omega) (by omega)
    rw [hwf]
    have hwe : wrap64 (width - Int.tdiv (width * current) total) =
        width - Int.tdiv (width * current) total :=
      wrap64_eq_of_range _ (by omega) (by omega)
    rw [hwe]
    have h2 : ¬ (Int.tdiv (width * current) total < 0) := by omega
    have h3 : ¬ (width - Int.tdiv (width * current) total < 0) := by omega
    simp [stringsRepeat, h2, h3]

/-- Witness for the amended C10: the zero-total guard and an in-range
bar. -/
theorem progressBar_amended_witness :
    progressBar 5 0 4 = some ("[" ++ String.mk (List.replicate (4 : Int).toNat ' ') ++ "]") ∧
    (progressBar 1 2 30).isSome = true :=
  ⟨(progressBar_amended 5 0 4 (by decide) (by decide)).1 rfl,
    (progressBar_amended 1 2 30 (by decide) (by decide)).2 (by decide) (by decide) (by decide)
      (by decide)⟩

end Gitboard
